import Mathlib

/-!
Verification of the health-api record-management service.

The service exposes uniform CRUD/search/count operations over nine record
types (patients, providers, appointments, encounters, prescriptions, labs,
vitals, inventory items, billing invoices).  Each module follows the same
pattern: a zod validation schema for create/update payloads, a mongoose
collection with defaults and timestamps, and a router with the fixed
operation set.  This file embeds that pattern shallowly: JSON payloads are
association lists of string/number/boolean values, the document store is a
list of records with an id counter and a logical clock, and each route
handler becomes a pure function from store and payload to response and
store.  Date and datetime strings are stored as their canonical pattern
strings; the handlers' new Date(...) rewrap is modeled by its one
observable effect, the validity of the cast: a pattern-valid string that
denotes no real calendar date or time yields an Invalid Date, mongoose's
date cast throws, and the route's catch answers 400 with no write.
-/

namespace HealthApi

/-- JSON-like values appearing in request payloads and stored records. -/
inductive Value where
  | str (s : String)
  | num (n : Int)
  | boolean (b : Bool)
deriving DecidableEq, Repr

/-- A raw JSON object: ordered field/value pairs, as sent in a request body. -/
abbrev Payload := List (String × Value)

/-- Look up the value of field k in a payload (first occurrence wins,
mirroring JS object key access). -/
def getVal (p : Payload) (k : String) : Option Value :=
  (p.find? (fun kv => kv.1 == k)).map (fun kv => kv.2)

/-- The zod date regex from the modules:
matches exactly the pattern of four digits, dash, two digits, dash, two
digits.  It is a pure digit-pattern check with no calendar validity test. -/
def matchDate (s : String) : Bool :=
  match s.data with
  | [y1, y2, y3, y4, '-', m1, m2, '-', d1, d2] =>
      y1.isDigit && y2.isDigit && y3.isDigit && y4.isDigit &&
      m1.isDigit && m2.isDigit && d1.isDigit && d2.isDigit
  | _ => false

/-- The zod datetime regex from appointments/encounters:
four digits, dash, two digits, dash, two digits, T, two digits, colon,
two digits, colon, two digits, dot, three digits, optional trailing Z. -/
def matchDateTime (s : String) : Bool :=
  match s.data with
  | [y1, y2, y3, y4, '-', m1, m2, '-', d1, d2, 'T',
     h1, h2, ':', n1, n2, ':', s1, s2, '.', q1, q2, q3] =>
      y1.isDigit && y2.isDigit && y3.isDigit && y4.isDigit &&
      m1.isDigit && m2.isDigit && d1.isDigit && d2.isDigit &&
      h1.isDigit && h2.isDigit && n1.isDigit && n2.isDigit &&
      s1.isDigit && s2.isDigit && q1.isDigit && q2.isDigit && q3.isDigit
  | [y1, y2, y3, y4, '-', m1, m2, '-', d1, d2, 'T',
     h1, h2, ':', n1, n2, ':', s1, s2, '.', q1, q2, q3, 'Z'] =>
      y1.isDigit && y2.isDigit && y3.isDigit && y4.isDigit &&
      m1.isDigit && m2.isDigit && d1.isDigit && d2.isDigit &&
      h1.isDigit && h2.isDigit && n1.isDigit && n2.isDigit &&
      s1.isDigit && s2.isDigit && q1.isDigit && q2.isDigit && q3.isDigit
  | _ => false

/-- Numeric value of a decimal digit character. -/
def digitVal (c : Char) : Nat := c.toNat - 48

/-- Two-digit decimal number. -/
def num2 (a b : Char) : Nat := 10 * digitVal a + digitVal b

/-- Four-digit decimal number. -/
def num4 (a b c d : Char) : Nat :=
  1000 * digitVal a + 100 * digitVal b + 10 * digitVal c + digitVal d

/-- Proleptic Gregorian leap year, as the JS Date parser uses. -/
def isLeap (y : Nat) : Bool :=
  (y % 4 == 0 && y % 100 != 0) || y % 400 == 0

/-- Days in a month of a given year. -/
def daysInMonth (y m : Nat) : Nat :=
  if m == 2 then (if isLeap y then 29 else 28)
  else if m == 4 || m == 6 || m == 9 || m == 11 then 30
  else 31

/-- Calendar validity of a year/month/day triple: what new Date enforces
beyond the digit pattern for an ISO date string — out-of-range fields
yield an Invalid Date. -/
def calendarOk (y m d : Nat) : Bool :=
  decide (1 ≤ m) && decide (m ≤ 12) && decide (1 ≤ d) && decide (d ≤ daysInMonth y m)

/-- Time-of-day validity of an ISO time: hours to 23 with minutes and
seconds to 59, or the special 24:00:00.000 end-of-day form. -/
def timeOk (hh mm ss ms : Nat) : Bool :=
  (decide (hh ≤ 23) && decide (mm ≤ 59) && decide (ss ≤ 59)) ||
  (hh == 24 && mm == 0 && ss == 0 && ms == 0)

/-- Does new Date on a YYYY-MM-DD pattern string produce a valid date?
JS rejects non-calendar dates (month 13, day 99, Feb 29 of a non-leap
year) with Invalid Date, which the mongoose date cast then refuses. -/
def jsDateOk (s : String) : Bool :=
  match s.data with
  | [y1, y2, y3, y4, '-', m1, m2, '-', d1, d2] =>
      calendarOk (num4 y1 y2 y3 y4) (num2 m1 m2) (num2 d1 d2)
  | _ => false

/-- Does new Date on a datetime pattern string (optional trailing Z)
produce a valid date?  Requires a real calendar date and a real time of
day; otherwise mongoose's date cast refuses the Invalid Date. -/
def jsDateTimeOk (s : String) : Bool :=
  match s.data with
  | [y1, y2, y3, y4, '-', m1, m2, '-', d1, d2, 'T',
     h1, h2, ':', n1, n2, ':', s1, s2, '.', q1, q2, q3] =>
      calendarOk (num4 y1 y2 y3 y4) (num2 m1 m2) (num2 d1 d2) &&
      timeOk (num2 h1 h2) (num2 n1 n2) (num2 s1 s2)
        (100 * digitVal q1 + 10 * digitVal q2 + digitVal q3)
  | [y1, y2, y3, y4, '-', m1, m2, '-', d1, d2, 'T',
     h1, h2, ':', n1, n2, ':', s1, s2, '.', q1, q2, q3, 'Z'] =>
      calendarOk (num4 y1 y2 y3 y4) (num2 m1 m2) (num2 d1 d2) &&
      timeOk (num2 h1 h2) (num2 n1 n2) (num2 s1 s2)
        (100 * digitVal q1 + 10 * digitVal q2 + digitVal q3)
  | _ => false

/-- The zod field validators used across the nine modules. -/
inductive FieldType where
  | fstring (minLen : Nat)
  | fdate
  | fdatetime
  | fenum (opts : List String)
  | fint (positive : Bool)
  | fnumber (positive : Bool)
  | fboolean
deriving DecidableEq, Repr

/-- One declared field of a zod object schema: its key, validator and
whether the create schema marks it required (no .optional()). -/
structure Field where
  name : String
  type : FieldType
  required : Bool
deriving DecidableEq, Repr

/-- One zod issue: the offending field and the violated constraint. -/
structure FieldError where
  field : String
  constraint : String
deriving DecidableEq, Repr

/-- Does a single value satisfy a field validator? -/
def checkType : FieldType → Value → Bool
  | .fstring minLen, .str s => decide (minLen ≤ s.length)
  | .fdate, .str s => matchDate s
  | .fdatetime, .str s => matchDateTime s
  | .fenum opts, .str s => opts.contains s
  | .fint positive, .num n => if positive then decide (0 < n) else decide (0 ≤ n)
  | .fnumber positive, .num n => !positive || decide (0 < n)
  | .fboolean, .boolean _ => true
  | _, _ => false

/-- Check one declared field of a create schema against the raw input:
a missing required field or a present ill-typed field is a violation. -/
def checkCreateField (input : Payload) (f : Field) : Option FieldError :=
  match getVal input f.name with
  | none => if f.required then some ⟨f.name, "required"⟩ else none
  | some v => if checkType f.type v then none else some ⟨f.name, "invalid_type"⟩

/-- Check one declared field of an update (.partial()) schema: every field
is optional, only present fields are checked. -/
def checkUpdateField (input : Payload) (f : Field) : Option FieldError :=
  match getVal input f.name with
  | none => none
  | some v => if checkType f.type v then none else some ⟨f.name, "invalid_type"⟩

/-- The date casts the route handlers and mongoose perform after a
successful zod parse: each date/datetime field present in the parsed
payload is passed through new Date(...); a pattern-valid but non-calendar
string yields an Invalid Date, which the mongoose date cast rejects —
the thrown error is caught by the route and reported like a validation
failure.  castCheckField checks one schema field, castErrors collects the
failures in schema order. -/
def castCheckField (data : Payload) (f : Field) : Option FieldError :=
  match f.type, getVal data f.name with
  | .fdate, some (.str s) =>
      if jsDateOk s then none else some ⟨f.name, "cast_error"⟩
  | .fdatetime, some (.str s) =>
      if jsDateTimeOk s then none else some ⟨f.name, "cast_error"⟩
  | _, _ => none

/-- All date-cast failures of a parsed payload, in schema order. -/
def castErrors (fields : List Field) (data : Payload) : List FieldError :=
  fields.filterMap (castCheckField data)

/-- zod object .parse for a create schema: every declared field is checked
and all violations are accumulated (no short-circuit); on success the
result keeps exactly the declared fields present in the input (unknown
extra keys are stripped). -/
def validateCreate (fields : List Field) (input : Payload) : Except (List FieldError) Payload :=
  if (fields.filterMap (checkCreateField input)).isEmpty then
    .ok (fields.filterMap (fun f => (getVal input f.name).map (fun v => (f.name, v))))
  else
    .error (fields.filterMap (checkCreateField input))

/-- zod object .partial().parse for an update schema. -/
def validateUpdate (fields : List Field) (input : Payload) : Except (List FieldError) Payload :=
  if (fields.filterMap (checkUpdateField input)).isEmpty then
    .ok (fields.filterMap (fun f => (getVal input f.name).map (fun v => (f.name, v))))
  else
    .error (fields.filterMap (checkUpdateField input))

/-- A stored document: mongo id, fields, and the createdAt/updatedAt
timestamps maintained by mongoose (timestamps: true). -/
structure Record where
  id : Nat
  fields : Payload
  createdAt : Nat
  updatedAt : Nat
deriving DecidableEq, Repr

/-- One mongo collection: stored documents, the next fresh id, and a
logical clock used for timestamps. -/
structure Store where
  recs : List Record
  nextId : Nat
  clock : Nat
deriving DecidableEq, Repr

/-- The empty collection. -/
def Store.empty : Store := ⟨[], 0, 0⟩

/-- mongoose schema defaults: append the default value of every schema
field the payload does not set. -/
def applyDefaults (defs : Payload) (p : Payload) : Payload :=
  p ++ defs.filter (fun kv => (getVal p kv.1).isNone)

/-- Model.create: apply schema defaults, assign a fresh id and both
timestamps, append the document. -/
def Store.insert (s : Store) (defs : Payload) (p : Payload) : Record × Store :=
  let r : Record := ⟨s.nextId, applyDefaults defs p, s.clock, s.clock⟩
  (r, ⟨s.recs ++ [r], s.nextId + 1, s.clock + 1⟩)

/-- Model.findById. -/
def Store.findById (s : Store) (i : Nat) : Option Record :=
  s.recs.find? (fun r => r.id == i)

/-- Overwrite one stored entry with the update value for its key, when
the update sets that key. -/
def updFun (upd : Payload) (kv : String × Value) : String × Value :=
  match getVal upd kv.1 with
  | some v => (kv.1, v)
  | none => kv

/-- $set semantics of findByIdAndUpdate: present keys are overwritten in
place, keys new to the document are appended. -/
def mergeFields (old upd : Payload) : Payload :=
  old.map (updFun upd) ++ upd.filter (fun kv => (getVal old kv.1).isNone)

/-- Apply an update to one document, refreshing its updatedAt timestamp. -/
def setFields (clock : Nat) (upd : Payload) (r : Record) : Record :=
  ⟨r.id, mergeFields r.fields upd, r.createdAt, clock⟩

/-- Model.findByIdAndUpdate with new: true — returns the updated document,
or none when the id is absent (the store is then untouched). -/
def Store.updateById (s : Store) (i : Nat) (upd : Payload) : Option Record × Store :=
  match s.findById i with
  | none => (none, s)
  | some r =>
      (some (setFields s.clock upd r),
       ⟨s.recs.map (fun x => if x.id == i then setFields s.clock upd x else x),
        s.nextId, s.clock + 1⟩)

/-- Model.findByIdAndDelete: remove the document if present; silently a
no-op otherwise. -/
def Store.deleteById (s : Store) (i : Nat) : Store :=
  ⟨s.recs.filter (fun r => r.id != i), s.nextId, s.clock⟩

/-- Model.countDocuments. -/
def Store.countAll (s : Store) : Nat := s.recs.length

/-- The HTTP responses the module routes produce. -/
inductive Response where
  | created (r : Record)
  | okRecord (r : Record)
  | okList (rs : List Record)
  | okCount (n : Nat)
  | noContent
  | notFound
  | invalidInput (details : List FieldError)
deriving DecidableEq, Repr

/-- The data one resource module is parameterized by: the zod create
schema (its .partial() is the update schema) and the mongoose schema
defaults applied at insert time. -/
structure ResourceSchema where
  fields : List Field
  defaults : Payload
deriving DecidableEq, Repr

/-- router.get root: list the whole collection. -/
def listOp (s : Store) : Response := .okList s.recs

/-- router.get count. -/
def countOp (s : Store) : Response := .okCount s.countAll

/-- The try-block body of router.post after a successful parse: the
handler rewraps each date string with new Date and calls Model.create;
when every date field casts to a valid date the document is inserted
(dates kept as their canonical pattern strings) and the route responds
201; when a cast fails, Model.create throws, the catch responds 400
validation_error, and nothing is written. -/
def createAfterParse (sch : ResourceSchema) (s : Store) (data : Payload) : Response × Store :=
  if (castErrors sch.fields data).isEmpty then
    let rs := s.insert sch.defaults data
    (.created rs.1, rs.2)
  else
    (.invalidInput (castErrors sch.fields data), s)

/-- router.post: parse with the create schema; on zod failure respond 400
validation_error with the issue list and write nothing; on success run
the date casts and the insert of the try block. -/
def createOp (sch : ResourceSchema) (s : Store) (input : Payload) : Response × Store :=
  match validateCreate sch.fields input with
  | .error errs => (.invalidInput errs, s)
  | .ok data => createAfterParse sch s data

/-- The try-block body of router.put after a successful parse:
findByIdAndUpdate first casts the update object — a failing date cast
throws a CastError caught as 400 with no write — then updates when the
id exists and reports 404 otherwise. -/
def updateAfterParse (sch : ResourceSchema) (s : Store) (i : Nat) (data : Payload) :
    Response × Store :=
  if (castErrors sch.fields data).isEmpty then
    match s.updateById i data with
    | (none, s2) => (.notFound, s2)
    | (some r, s2) => (.okRecord r, s2)
  else
    (.invalidInput (castErrors sch.fields data), s)

/-- router.put: parse with the update schema; 400 on zod failure,
otherwise run the casts and the update of the try block. -/
def updateOp (sch : ResourceSchema) (s : Store) (i : Nat) (input : Payload) : Response × Store :=
  match validateUpdate sch.fields input with
  | .error errs => (.invalidInput errs, s)
  | .ok data => updateAfterParse sch s i data

/-- router.delete: findByIdAndDelete then unconditional 204. -/
def deleteOp (s : Store) (i : Nat) : Response × Store :=
  (.noContent, s.deleteById i)

/-- router.patch cancel (appointments only): findByIdAndUpdate forcing
status to cancelled with no validation and no prior-state check; 404 only
when the id is absent. -/
def cancelOp (s : Store) (i : Nat) : Response × Store :=
  match s.updateById i [("status", .str "cancelled")] with
  | (none, s2) => (.notFound, s2)
  | (some r, s2) => (.okRecord r, s2)

/-- Patients zod create schema (PatientCreate in the source). -/
def PatientCreate : List Field :=
  [⟨"name", .fstring 2, true⟩,
   ⟨"dob", .fdate, true⟩,
   ⟨"gender", .fenum ["M", "F", "O"], false⟩]

/-- Patient defaults: mongoose gender default, also forced by the create
handler via data.gender or O. -/
def patientDefaults : Payload := [("gender", .str "O")]

/-- The patients resource module binding. -/
def patientResource : ResourceSchema := ⟨PatientCreate, patientDefaults⟩

/-- Providers zod create schema (ProviderCreate in the source). -/
def ProviderCreate : List Field :=
  [⟨"name", .fstring 2, true⟩,
   ⟨"specialty", .fstring 2, true⟩,
   ⟨"active", .fboolean, false⟩]

/-- Provider defaults: active defaults to true in the mongoose schema. -/
def providerDefaults : Payload := [("active", .boolean true)]

/-- The providers resource module binding. -/
def providerResource : ResourceSchema := ⟨ProviderCreate, providerDefaults⟩

/-- Appointments zod create schema (AppointmentCreate in the source). -/
def AppointmentCreate : List Field :=
  [⟨"patientId", .fstring 0, true⟩,
   ⟨"providerId", .fstring 0, true⟩,
   ⟨"start", .fdatetime, true⟩,
   ⟨"end", .fdatetime, true⟩,
   ⟨"status", .fenum ["scheduled", "completed", "cancelled"], false⟩]

/-- Appointment defaults: status defaults to scheduled. -/
def appointmentDefaults : Payload := [("status", .str "scheduled")]

/-- The appointments resource module binding. -/
def appointmentResource : ResourceSchema := ⟨AppointmentCreate, appointmentDefaults⟩

/-- Encounters zod create schema (EncounterCreate in the source). -/
def EncounterCreate : List Field :=
  [⟨"patientId", .fstring 0, true⟩,
   ⟨"providerId", .fstring 0, true⟩,
   ⟨"date", .fdatetime, true⟩,
   ⟨"notes", .fstring 0, false⟩]

/-- Encounter defaults: notes defaults to the empty string. -/
def encounterDefaults : Payload := [("notes", .str "")]

/-- The encounters resource module binding. -/
def encounterResource : ResourceSchema := ⟨EncounterCreate, encounterDefaults⟩

/-- Prescriptions zod create schema (PrescriptionCreate in the source). -/
def PrescriptionCreate : List Field :=
  [⟨"patientId", .fstring 0, true⟩,
   ⟨"providerId", .fstring 0, true⟩,
   ⟨"medication", .fstring 0, true⟩,
   ⟨"dosage", .fstring 0, true⟩,
   ⟨"startDate", .fdate, true⟩,
   ⟨"endDate", .fdate, true⟩,
   ⟨"status", .fenum ["active", "completed", "cancelled"], false⟩]

/-- Prescription defaults: status defaults to active. -/
def prescriptionDefaults : Payload := [("status", .str "active")]

/-- The prescriptions resource module binding. -/
def prescriptionResource : ResourceSchema := ⟨PrescriptionCreate, prescriptionDefaults⟩

/-- Labs zod create schema (LabCreate in the source). -/
def LabCreate : List Field :=
  [⟨"patientId", .fstring 0, true⟩,
   ⟨"testName", .fstring 0, true⟩,
   ⟨"result", .fstring 0, true⟩,
   ⟨"date", .fdate, true⟩]

/-- The labs resource module binding (no schema defaults). -/
def labResource : ResourceSchema := ⟨LabCreate, []⟩

/-- Vitals zod create schema (VitalsCreate in the source). -/
def VitalsCreate : List Field :=
  [⟨"patientId", .fstring 0, true⟩,
   ⟨"date", .fdate, true⟩,
   ⟨"heartRate", .fint true, true⟩,
   ⟨"bloodPressure", .fstring 0, true⟩,
   ⟨"temperature", .fnumber false, true⟩]

/-- The vitals resource module binding (no schema defaults). -/
def vitalsResource : ResourceSchema := ⟨VitalsCreate, []⟩

/-- Inventory zod create schema (InventoryCreate in the source). -/
def InventoryCreate : List Field :=
  [⟨"name", .fstring 0, true⟩,
   ⟨"quantity", .fint false, true⟩,
   ⟨"reorderLevel", .fint false, false⟩]

/-- Inventory defaults: reorderLevel defaults to 0. -/
def inventoryDefaults : Payload := [("reorderLevel", .num 0)]

/-- The inventory resource module binding. -/
def inventoryResource : ResourceSchema := ⟨InventoryCreate, inventoryDefaults⟩

/-- Billing zod create schema (BillingCreate in the source). -/
def BillingCreate : List Field :=
  [⟨"patientId", .fstring 0, true⟩,
   ⟨"amount", .fnumber true, true⟩,
   ⟨"status", .fenum ["unpaid", "paid", "pending"], false⟩,
   ⟨"dueDate", .fdate, true⟩]

/-- Billing defaults: status defaults to unpaid. -/
def billingDefaults : Payload := [("status", .str "unpaid")]

/-- The billing resource module binding. -/
def billingResource : ResourceSchema := ⟨BillingCreate, billingDefaults⟩

/-- All nine resource module bindings of the service registry. -/
def allResources : List ResourceSchema :=
  [patientResource, providerResource, appointmentResource, encounterResource,
   prescriptionResource, labResource, vitalsResource, inventoryResource,
   billingResource]

/-- One mongo query condition built by a search route: exact field match
or case-insensitive substring ($regex with option i). -/
inductive Cond where
  | exact (field : String) (v : String)
  | substr (field : String) (term : String)
deriving DecidableEq, Repr

/-- The field a condition constrains. -/
def Cond.fieldName : Cond → String
  | .exact f _ => f
  | .substr f _ => f

/-- The filter object handed to Model.find by a search route: the usual
implicit conjunction of field conditions, or a $or disjunction. -/
inductive Filter where
  | conj (conds : List Cond)
  | disj (conds : List Cond)
deriving DecidableEq, Repr

/-- The conditions of a filter, either shape. -/
def Filter.conds : Filter → List Cond
  | .conj cs => cs
  | .disj cs => cs

/-- JS truthiness test the search routes apply to a query parameter:
an absent parameter and the empty string are both falsy. -/
def truthy : Option String → Bool
  | none => false
  | some s => !(s == "")

/-- The if (param) where.field = cond pattern: add the condition only
when the parameter is truthy. -/
def condWhen (mk : String → Cond) (o : Option String) : List Cond :=
  match o with
  | none => []
  | some s => if s == "" then [] else [mk s]

/-- The req.query.term or empty-string default used by patients and
providers search. -/
def orEmpty : Option String → String
  | none => ""
  | some s => s

/-- Patients search: term defaults to the empty string and the name
substring condition is always present. -/
def patientsSearchWhere (term : Option String) : Filter :=
  .conj [.substr "name" (orEmpty term)]

/-- Providers search: term defaults to the empty string and a $or of name
and specialty substring conditions is always present. -/
def providersSearchWhere (term : Option String) : Filter :=
  .disj [.substr "name" (orEmpty term), .substr "specialty" (orEmpty term)]

/-- Appointments search: patientId/providerId exact conditions only when
the parameter is truthy. -/
def appointmentsSearchWhere (patientId providerId : Option String) : Filter :=
  .conj (condWhen (Cond.exact "patientId") patientId ++
         condWhen (Cond.exact "providerId") providerId)

/-- Encounters search: same shape as appointments. -/
def encountersSearchWhere (patientId providerId : Option String) : Filter :=
  .conj (condWhen (Cond.exact "patientId") patientId ++
         condWhen (Cond.exact "providerId") providerId)

/-- Prescriptions search: same shape as appointments. -/
def prescriptionsSearchWhere (patientId providerId : Option String) : Filter :=
  .conj (condWhen (Cond.exact "patientId") patientId ++
         condWhen (Cond.exact "providerId") providerId)

/-- Labs search: exact patientId, substring testName, each only when
truthy. -/
def labsSearchWhere (patientId testName : Option String) : Filter :=
  .conj (condWhen (Cond.exact "patientId") patientId ++
         condWhen (Cond.substr "testName") testName)

/-- Vitals search: exact patientId only when truthy. -/
def vitalsSearchWhere (patientId : Option String) : Filter :=
  .conj (condWhen (Cond.exact "patientId") patientId)

/-- Inventory search: substring name only when truthy. -/
def inventorySearchWhere (name : Option String) : Filter :=
  .conj (condWhen (Cond.substr "name") name)

/-- Billing search: exact patientId and status, each only when truthy. -/
def billingSearchWhere (patientId status : Option String) : Filter :=
  .conj (condWhen (Cond.exact "patientId") patientId ++
         condWhen (Cond.exact "status") status)

/-- Outcome of an awaited store call inside the reports try blocks: a
value, or a raised error caught by the catch. -/
inductive AggOutcome (α : Type) where
  | ok (a : α)
  | raised
deriving DecidableEq, Repr

/-- Responses of the report routes.  The source always answers with a 200
JSON body; the errorResp constructor exists in the response type so the
theorems can state that it is never produced. -/
inductive ReportResp where
  | okTotal (total : Nat)
  | okGroups (groups : List (String × Int))
  | errorResp
deriving DecidableEq, Repr

/-- GET reports/appointments: the Appointment model may be null when the
database was never connected (Option), and countDocuments may raise; the
route answers total 0 in both cases and the counted total otherwise. -/
def reportAppointmentsRoute (model : Option Store) (count : Store → AggOutcome Nat) :
    ReportResp :=
  match model with
  | none => .okTotal 0
  | some m =>
      match count m with
      | .ok n => .okTotal n
      | .raised => .okTotal 0

/-- GET reports/billing: groups billing amounts by status via aggregate;
the route answers an empty array when the Billing model is null or the
aggregation raises. -/
def reportBillingRoute (model : Option Store)
    (agg : Store → AggOutcome (List (String × Int))) : ReportResp :=
  match model with
  | none => .okGroups []
  | some m =>
      match agg m with
      | .ok gs => .okGroups gs
      | .raised => .okGroups []

/-- A concrete patient record and store used to evaluate the theorems. -/
def janeRecord : Record :=
  ⟨0, [("name", Value.str "Jane Doe"), ("dob", Value.str "1990-05-01"),
      ("gender", Value.str "O")], 0, 0⟩

/-- A store holding only the sample patient. -/
def janeStore : Store := ⟨[janeRecord], 1, 1⟩

/-- Does a value satisfy a field validator's enum constraint (non-enum
validators impose none here)? -/
def enumValOk : FieldType → Value → Bool
  | .fenum opts, .str s => opts.contains s
  | .fenum _, .num _ => false
  | .fenum _, .boolean _ => false
  | _, _ => true

/-- Every entry of a payload respects the enum constraint of every schema
field sharing its key. -/
def PayloadEnumOk (fields : List Field) (p : Payload) : Prop :=
  ∀ f ∈ fields, ∀ kv ∈ p, kv.1 = f.name → enumValOk f.type kv.2 = true

instance (fields : List Field) (p : Payload) : Decidable (PayloadEnumOk fields p) := by
  unfold PayloadEnumOk
  infer_instance

/-- Bool form of per-record enum validity, for concrete evaluation. -/
def recEnumOk (sch : ResourceSchema) (r : Record) : Bool :=
  sch.fields.all (fun f => r.fields.all (fun kv => kv.1 != f.name || enumValOk f.type kv.2))

/-- Every record of a store satisfies the schema's enum constraints. -/
def StoreEnumOk (sch : ResourceSchema) (s : Store) : Prop :=
  ∀ r ∈ s.recs, PayloadEnumOk sch.fields r.fields

/-- Stores reachable from the empty collection through the exposed
mutating operations; the cancel transition exists only on the
appointments module. -/
inductive Reachable (sch : ResourceSchema) : Store → Prop where
  | empty : Reachable sch Store.empty
  | create (s : Store) (input : Payload) : Reachable sch s →
      Reachable sch (createOp sch s input).2
  | update (s : Store) (i : Nat) (input : Payload) : Reachable sch s →
      Reachable sch (updateOp sch s i input).2
  | del (s : Store) (i : Nat) : Reachable sch s → Reachable sch (deleteOp s i).2
  | cancel (s : Store) (i : Nat) : sch = appointmentResource → Reachable sch s →
      Reachable sch (cancelOp s i).2

/-! ## Association-list lemmas -/

theorem getVal_eq_none_iff (p : Payload) (k : String) :
    getVal p k = none ↔ ∀ kv ∈ p, kv.1 ≠ k := by
  simp [getVal, Option.map_eq_none', List.find?_eq_none]

theorem mem_of_getVal_eq_some {p : Payload} {k : String} {v : Value}
    (h : getVal p k = some v) : (k, v) ∈ p := by
  unfold getVal at h
  cases hf : p.find? (fun kv => kv.1 == k) with
  | none => rw [hf] at h; cases h
  | some kv =>
      rw [hf] at h
      obtain ⟨k1, v1⟩ := kv
      have hm := List.mem_of_find?_eq_some hf
      have hk : k1 = k := by simpa using List.find?_some hf
      have hv : v1 = v := by simpa using h
      rw [← hk, ← hv]
      exact hm

theorem updFun_fst (upd : Payload) (kv : String × Value) : (updFun upd kv).1 = kv.1 := by
  rcases h : getVal upd kv.1 with _ | v <;> simp [updFun, h]

theorem find?_map_updFun (old upd : Payload) (k : String) :
    (old.map (updFun upd)).find? (fun kv => kv.1 == k) =
      (old.find? (fun kv => kv.1 == k)).map (updFun upd) := by
  rw [List.find?_map]
  have hpred : ((fun kv : String × Value => kv.1 == k) ∘ updFun upd) =
      (fun kv : String × Value => kv.1 == k) := by
    funext kv
    simp [Function.comp, updFun_fst]
  rw [hpred]

theorem getVal_append (a b : Payload) (k : String) :
    getVal (a ++ b) k = (getVal a k).or (getVal b k) := by
  unfold getVal
  rw [List.find?_append]
  cases List.find? (fun kv => kv.1 == k) a <;> simp

theorem getVal_cons (k1 : String) (v1 : Value) (p : Payload) (k : String) :
    getVal ((k1, v1) :: p) k = if k1 == k then some v1 else getVal p k := by
  unfold getVal
  rw [List.find?_cons]
  cases h : (k1 == k) <;> simp [h]

theorem getVal_map_updFun_of_none {upd : Payload} {k : String}
    (h : getVal upd k = none) (old : Payload) :
    getVal (old.map (updFun upd)) k = getVal old k := by
  unfold getVal
  rw [find?_map_updFun]
  cases hf : old.find? (fun kv => kv.1 == k) with
  | none => rfl
  | some kv =>
      have hk : kv.1 = k := by simpa using List.find?_some hf
      have hu : updFun upd kv = kv := by
        unfold updFun
        rw [hk, h]
      simp [hu]

theorem getVal_map_updFun_of_some {upd : Payload} {k : String} {v : Value}
    (h : getVal upd k = some v) (old : Payload) :
    getVal (old.map (updFun upd)) k = (getVal old k).map (fun _ => v) := by
  unfold getVal
  rw [find?_map_updFun]
  cases hf : old.find? (fun kv => kv.1 == k) with
  | none => rfl
  | some kv =>
      have hk : kv.1 = k := by simpa using List.find?_some hf
      have hu : updFun upd kv = (k, v) := by
        unfold updFun
        rw [hk, h]
      simp [hu]

theorem getVal_filter_not_old {old : Payload} {k : String}
    (hold : getVal old k = none) (upd : Payload) :
    getVal (upd.filter (fun kv => (getVal old kv.1).isNone)) k = getVal upd k := by
  induction upd with
  | nil => rfl
  | cons kv rest ih =>
      obtain ⟨k1, v1⟩ := kv
      rw [List.filter_cons]
      by_cases hcond : (getVal old k1).isNone = true
      · have hcond2 : (getVal old (k1, v1).1).isNone = true := hcond
        rw [if_pos hcond2, getVal_cons, getVal_cons]
        cases h1 : (k1 == k) with
        | true => simp
        | false => simpa [h1] using ih
      · have hk1 : ¬(k1 == k) = true := by
          intro hb
          have : k1 = k := by simpa using hb
          rw [this, hold] at hcond
          exact hcond rfl
        have hcond2 : ¬((getVal old (k1, v1).1).isNone = true) := hcond
        rw [if_neg hcond2, getVal_cons, ih]
        have h1 : (k1 == k) = false := by
          cases h2 : (k1 == k)
          · rfl
          · exact absurd h2 hk1
        rw [h1]
        rfl

theorem getVal_mergeFields_of_none {upd : Payload} {k : String}
    (h : getVal upd k = none) (old : Payload) :
    getVal (mergeFields old upd) k = getVal old k := by
  have hB : getVal (upd.filter (fun kv => (getVal old kv.1).isNone)) k = none := by
    rw [getVal_eq_none_iff]
    intro kv hkv
    exact (getVal_eq_none_iff upd k).mp h kv (List.mem_filter.mp hkv).1
  unfold mergeFields
  rw [getVal_append, getVal_map_updFun_of_none h, hB, Option.or_none]

theorem getVal_mergeFields_of_some {upd : Payload} {k : String} {v : Value}
    (h : getVal upd k = some v) (old : Payload) :
    getVal (mergeFields old upd) k = some v := by
  unfold mergeFields
  rw [getVal_append, getVal_map_updFun_of_some h]
  cases hold : getVal old k with
  | some w => rfl
  | none =>
      rw [Option.map_none', Option.none_or, getVal_filter_not_old hold]
      exact h

theorem mem_mergeFields {kv : String × Value} {old upd : Payload}
    (h : kv ∈ mergeFields old upd) : kv ∈ old ∨ kv ∈ upd := by
  unfold mergeFields at h
  rcases List.mem_append.mp h with h1 | h2
  · rcases List.mem_map.mp h1 with ⟨kv0, hkv0, rfl⟩
    cases hg : getVal upd kv0.1 with
    | none =>
        left
        simpa [updFun, hg] using hkv0
    | some v =>
        right
        have hmem := mem_of_getVal_eq_some hg
        simpa [updFun, hg] using hmem
  · exact Or.inr (List.mem_filter.mp h2).1

theorem mem_applyDefaults {kv : String × Value} {defs p : Payload}
    (h : kv ∈ applyDefaults defs p) : kv ∈ p ∨ kv ∈ defs := by
  unfold applyDefaults at h
  rcases List.mem_append.mp h with h1 | h2
  · exact Or.inl h1
  · exact Or.inr (List.mem_filter.mp h2).1

/-! ## Validation lemmas -/

theorem validateCreate_ok {fields : List Field} {input data : Payload}
    (h : validateCreate fields input = .ok data) :
    (∀ f ∈ fields, checkCreateField input f = none) ∧
    data = fields.filterMap (fun f => (getVal input f.name).map (fun v => (f.name, v))) := by
  unfold validateCreate at h
  split at h
  next hemp =>
    injection h with h2
    refine ⟨fun f hf => ?_, h2.symm⟩
    exact List.filterMap_eq_nil_iff.mp (List.isEmpty_iff.mp hemp) f hf
  next => cases h

theorem validateCreate_error {fields : List Field} {input : Payload} {errs : List FieldError}
    (h : validateCreate fields input = .error errs) :
    errs = fields.filterMap (checkCreateField input) ∧ errs ≠ [] := by
  unfold validateCreate at h
  split at h
  next => cases h
  next hemp =>
    injection h with h2
    subst h2
    refine ⟨rfl, fun hnil => hemp ?_⟩
    rw [hnil]
    rfl

theorem validateUpdate_ok {fields : List Field} {input data : Payload}
    (h : validateUpdate fields input = .ok data) :
    (∀ f ∈ fields, checkUpdateField input f = none) ∧
    data = fields.filterMap (fun f => (getVal input f.name).map (fun v => (f.name, v))) := by
  unfold validateUpdate at h
  split at h
  next hemp =>
    injection h with h2
    refine ⟨fun f hf => ?_, h2.symm⟩
    exact List.filterMap_eq_nil_iff.mp (List.isEmpty_iff.mp hemp) f hf
  next => cases h

theorem castErrors_nil (fields : List Field) : castErrors fields [] = [] := by
  rw [castErrors, List.filterMap_eq_nil_iff]
  intro f _
  rcases f with ⟨name, ty, req⟩
  cases ty <;> rfl

theorem updateOp_ok (sch : ResourceSchema) (s : Store) (i : Nat) {input data : Payload}
    (hval : validateUpdate sch.fields input = Except.ok data) :
    updateOp sch s i input = updateAfterParse sch s i data := by
  unfold updateOp
  rw [hval]

theorem validateUpdate_empty (fields : List Field) :
    validateUpdate fields [] = .ok [] := by
  unfold validateUpdate
  have h1 : fields.filterMap (checkUpdateField []) = [] := by
    rw [List.filterMap_eq_nil_iff]
    intro f _
    rfl
  have h2 : fields.filterMap
      (fun f => (getVal [] f.name).map (fun v => (f.name, v))) = [] := by
    rw [List.filterMap_eq_nil_iff]
    intro f _
    rfl
  rw [h1, h2]
  rfl

/-! ## Search filter lemmas -/

theorem mem_condWhen {c : Cond} {mk : String → Cond} {o : Option String}
    (h : c ∈ condWhen mk o) : ∃ s, o = some s ∧ c = mk s := by
  cases o with
  | none => cases h
  | some s =>
      have h2 : c ∈ (if (s == "") = true then [] else [mk s]) := h
      by_cases hs : (s == "") = true
      · rw [if_pos hs] at h2
        cases h2
      · rw [if_neg hs] at h2
        exact ⟨s, rfl, by simpa using h2⟩

/-! ## Claim theorems -/

/-- Claim C4: for every collection and every id, delete responds 204 with
no error and no 404 distinction; when the id has no record the collection
is left exactly as it was. -/
theorem delete_unconditional (s : Store) (i : Nat) :
    (deleteOp s i).1 = Response.noContent ∧
    (s.findById i = none → deleteOp s i = (Response.noContent, s)) := by
  refine ⟨rfl, fun h => ?_⟩
  unfold deleteOp Store.deleteById
  unfold Store.findById at h
  have hfilter : s.recs.filter (fun r => r.id != i) = s.recs := by
    rw [List.filter_eq_self]
    intro r hr
    have := List.find?_eq_none.mp h r hr
    simpa using this
  rw [hfilter]

/-- Witness for C4 at a concrete store and an id with no record. -/
theorem delete_unconditional_check :
    deleteOp ⟨[⟨0, [("name", Value.str "Jane Doe")], 0, 0⟩], 1, 1⟩ 5 =
      (Response.noContent, ⟨[⟨0, [("name", Value.str "Jane Doe")], 0, 0⟩], 1, 1⟩) :=
  (delete_unconditional ⟨[⟨0, [("name", Value.str "Jane Doe")], 0, 0⟩], 1, 1⟩ 5).2 rfl

/-- Claim C5: the appointment cancel route forces status to cancelled on
any existing record — whatever the prior status, with no validation and no
prior-state check, every other field kept — and answers 404 not_found only
when the id has no record. -/
theorem cancel_forces_cancelled (s : Store) (i : Nat) :
    (s.findById i = none → cancelOp s i = (Response.notFound, s)) ∧
    (∀ r, s.findById i = some r →
      ∃ r2 s2, cancelOp s i = (Response.okRecord r2, s2) ∧
        getVal r2.fields "status" = some (Value.str "cancelled") ∧
        r2.id = r.id ∧ r2.createdAt = r.createdAt ∧
        ∀ k, k ≠ "status" → getVal r2.fields k = getVal r.fields k) := by
  constructor
  · intro h
    unfold cancelOp Store.updateById
    rw [h]
  · intro r hr
    have hc : cancelOp s i =
        (Response.okRecord (setFields s.clock [("status", Value.str "cancelled")] r),
         ⟨s.recs.map (fun x => if x.id == i then
             setFields s.clock [("status", Value.str "cancelled")] x else x),
          s.nextId, s.clock + 1⟩) := by
      unfold cancelOp Store.updateById
      rw [hr]
    refine ⟨_, _, hc, ?_, rfl, rfl, ?_⟩
    · show getVal (mergeFields r.fields [("status", Value.str "cancelled")]) "status" = _
      exact getVal_mergeFields_of_some (by rfl) r.fields
    · intro k hk
      show getVal (mergeFields r.fields [("status", Value.str "cancelled")]) k = _
      refine getVal_mergeFields_of_none ?_ r.fields
      rw [getVal_cons]
      have hb : ("status" == k) = false := by
        cases hbb : ("status" == k)
        · rfl
        · have heq : "status" = k := by simpa using hbb
          exact absurd heq.symm hk
      rw [hb]
      rfl

/-- Witness for C5: cancelling an already completed appointment still
forces cancelled, and cancelling a missing id answers 404. -/
theorem cancel_forces_cancelled_check :
    (∃ r2 s2,
      cancelOp ⟨[⟨0, [("status", Value.str "completed")], 0, 0⟩], 1, 1⟩ 0 =
        (Response.okRecord r2, s2) ∧
      getVal r2.fields "status" = some (Value.str "cancelled") ∧
      r2.id = 0 ∧ r2.createdAt = 0 ∧
      ∀ k, k ≠ "status" →
        getVal r2.fields k = getVal [("status", Value.str "completed")] k) ∧
    cancelOp ⟨[⟨0, [("status", Value.str "completed")], 0, 0⟩], 1, 1⟩ 7 =
      (Response.notFound, ⟨[⟨0, [("status", Value.str "completed")], 0, 0⟩], 1, 1⟩) :=
  ⟨(cancel_forces_cancelled ⟨[⟨0, [("status", Value.str "completed")], 0, 0⟩], 1, 1⟩ 0).2
      ⟨0, [("status", Value.str "completed")], 0, 0⟩ rfl,
   (cancel_forces_cancelled ⟨[⟨0, [("status", Value.str "completed")], 0, 0⟩], 1, 1⟩ 7).1 rfl⟩

/-- Counterexample to claim C2 as stated: the patients search route with
no term parameter still builds a filter containing a name substring
condition (the empty-string default), and providers likewise for name and
specialty. -/
theorem patients_search_defaults_empty_term :
    Cond.substr "name" "" ∈ (patientsSearchWhere none).conds ∧
    patientsSearchWhere none = Filter.conj [Cond.substr "name" ""] ∧
    providersSearchWhere none =
      Filter.disj [Cond.substr "name" "", Cond.substr "specialty" ""] := by
  refine ⟨?_, rfl, rfl⟩
  show Cond.substr "name" "" ∈ [Cond.substr "name" ""]
  exact List.mem_singleton.mpr rfl

/-- Claim C2 amended: on the appointments, encounters, prescriptions,
labs, vitals, inventory and billing search routes an absent parameter
contributes no condition to the filter; the patients and providers routes
are the exception — they default an absent term to the empty string and
always include their substring condition(s). -/
theorem search_absent_param_excluded :
    (∀ pid prov : Option String, ∀ c ∈ (appointmentsSearchWhere pid prov).conds,
      (pid = none → c.fieldName ≠ "patientId") ∧
      (prov = none → c.fieldName ≠ "providerId")) ∧
    (∀ pid prov : Option String, ∀ c ∈ (encountersSearchWhere pid prov).conds,
      (pid = none → c.fieldName ≠ "patientId") ∧
      (prov = none → c.fieldName ≠ "providerId")) ∧
    (∀ pid prov : Option String, ∀ c ∈ (prescriptionsSearchWhere pid prov).conds,
      (pid = none → c.fieldName ≠ "patientId") ∧
      (prov = none → c.fieldName ≠ "providerId")) ∧
    (∀ pid tn : Option String, ∀ c ∈ (labsSearchWhere pid tn).conds,
      (pid = none → c.fieldName ≠ "patientId") ∧
      (tn = none → c.fieldName ≠ "testName")) ∧
    (∀ pid : Option String, ∀ c ∈ (vitalsSearchWhere pid).conds,
      pid = none → c.fieldName ≠ "patientId") ∧
    (∀ nm : Option String, ∀ c ∈ (inventorySearchWhere nm).conds,
      nm = none → c.fieldName ≠ "name") ∧
    (∀ pid st : Option String, ∀ c ∈ (billingSearchWhere pid st).conds,
      (pid = none → c.fieldName ≠ "patientId") ∧
      (st = none → c.fieldName ≠ "status")) ∧
    patientsSearchWhere none = Filter.conj [Cond.substr "name" ""] ∧
    providersSearchWhere none =
      Filter.disj [Cond.substr "name" "", Cond.substr "specialty" ""] := by
  have hpair : ∀ (mk1 mk2 : String → Cond) (f1 f2 : String),
      (∀ s, (mk1 s).fieldName = f1) → (∀ s, (mk2 s).fieldName = f2) → f1 ≠ f2 →
      ∀ pid prov : Option String,
      ∀ c ∈ condWhen mk1 pid ++ condWhen mk2 prov,
      (pid = none → c.fieldName ≠ f1) ∧ (prov = none → c.fieldName ≠ f2) := by
    intro mk1 mk2 f1 f2 hmk1 hmk2 hne pid prov c hc
    rcases List.mem_append.mp hc with h | h
    · rcases mem_condWhen h with ⟨s, hs, rfl⟩
      constructor
      · intro hn
        rw [hn] at hs
        cases hs
      · intro _
        rw [hmk1 s]
        exact hne
    · rcases mem_condWhen h with ⟨s, hs, rfl⟩
      constructor
      · intro _
        rw [hmk2 s]
        exact hne.symm
      · intro hn
        rw [hn] at hs
        cases hs
  have hsingle : ∀ (mk : String → Cond) (f1 : String) (c : Cond),
      c ∈ condWhen mk none → c.fieldName ≠ f1 := by
    intro mk f1 c hc
    cases hc
  refine ⟨?_, ?_, ?_, ?_, ?_, ?_, ?_, rfl, rfl⟩
  · exact fun pid prov =>
      hpair (Cond.exact "patientId") (Cond.exact "providerId") "patientId" "providerId"
        (fun _ => rfl) (fun _ => rfl) (by decide) pid prov
  · exact fun pid prov =>
      hpair (Cond.exact "patientId") (Cond.exact "providerId") "patientId" "providerId"
        (fun _ => rfl) (fun _ => rfl) (by decide) pid prov
  · exact fun pid prov =>
      hpair (Cond.exact "patientId") (Cond.exact "providerId") "patientId" "providerId"
        (fun _ => rfl) (fun _ => rfl) (by decide) pid prov
  · exact fun pid tn =>
      hpair (Cond.exact "patientId") (Cond.substr "testName") "patientId" "testName"
        (fun _ => rfl) (fun _ => rfl) (by decide) pid tn
  · intro pid c hc hn
    rw [hn] at hc
    exact hsingle (Cond.exact "patientId") "patientId" c hc
  · intro nm c hc hn
    rw [hn] at hc
    exact hsingle (Cond.substr "name") "name" c hc
  · exact fun pid st =>
      hpair (Cond.exact "patientId") (Cond.exact "status") "patientId" "status"
        (fun _ => rfl) (fun _ => rfl) (by decide) pid st

/-- Claim C9: GET reports/appointments and GET reports/billing always
answer a 200 body; with a null model or a raised aggregation they degrade
to total 0 respectively an empty array, never to an error response. -/
theorem reports_degrade (modelA : Option Store) (countA : Store → AggOutcome Nat)
    (modelB : Option Store) (aggB : Store → AggOutcome (List (String × Int))) :
    (∃ n, reportAppointmentsRoute modelA countA = ReportResp.okTotal n) ∧
    reportAppointmentsRoute none countA = ReportResp.okTotal 0 ∧
    (∀ m, countA m = AggOutcome.raised →
      reportAppointmentsRoute (some m) countA = ReportResp.okTotal 0) ∧
    (∃ gs, reportBillingRoute modelB aggB = ReportResp.okGroups gs) ∧
    reportBillingRoute none aggB = ReportResp.okGroups [] ∧
    (∀ m, aggB m = AggOutcome.raised →
      reportBillingRoute (some m) aggB = ReportResp.okGroups []) ∧
    reportAppointmentsRoute modelA countA ≠ ReportResp.errorResp ∧
    reportBillingRoute modelB aggB ≠ ReportResp.errorResp := by
  have hA : ∃ n, reportAppointmentsRoute modelA countA = ReportResp.okTotal n := by
    cases modelA with
    | none => exact ⟨0, rfl⟩
    | some m =>
        cases hc : countA m with
        | ok n => exact ⟨n, by simp [reportAppointmentsRoute, hc]⟩
        | raised => exact ⟨0, by simp [reportAppointmentsRoute, hc]⟩
  have hB : ∃ gs, reportBillingRoute modelB aggB = ReportResp.okGroups gs := by
    cases modelB with
    | none => exact ⟨[], rfl⟩
    | some m =>
        cases hc : aggB m with
        | ok gs => exact ⟨gs, by simp [reportBillingRoute, hc]⟩
        | raised => exact ⟨[], by simp [reportBillingRoute, hc]⟩
  refine ⟨hA, rfl, ?_, hB, rfl, ?_, ?_, ?_⟩
  · intro m hm
    simp [reportAppointmentsRoute, hm]
  · intro m hm
    simp [reportBillingRoute, hm]
  · obtain ⟨n, hn⟩ := hA
    rw [hn]
    intro h
    cases h
  · obtain ⟨gs, hgs⟩ := hB
    rw [hgs]
    intro h
    cases h

/-- Witness for C9 at a present model whose aggregation raises. -/
theorem reports_degrade_check :
    reportAppointmentsRoute (some Store.empty) (fun _ => AggOutcome.raised) =
      ReportResp.okTotal 0 ∧
    reportBillingRoute (some Store.empty) (fun _ => AggOutcome.raised) =
      ReportResp.okGroups [] :=
  ⟨(reports_degrade (some Store.empty) (fun _ => AggOutcome.raised)
      (some Store.empty) (fun _ => AggOutcome.raised)).2.2.1 Store.empty rfl,
   (reports_degrade (some Store.empty) (fun _ => AggOutcome.raised)
      (some Store.empty) (fun _ => AggOutcome.raised)).2.2.2.2.2.1 Store.empty rfl⟩

/-- Witness for C2: on the appointments search route with no patientId,
the condition built from the providerId parameter does not constrain
patientId. -/
theorem search_absent_param_excluded_check :
    (Cond.exact "providerId" "d1").fieldName ≠ "patientId" :=
  (search_absent_param_excluded.1 none (some "d1") (Cond.exact "providerId" "d1")
      (by decide)).1 rfl

/-- Claim C1: for every resource schema, a create payload violating at
least one validation rule yields the 400 validation_error response whose
detail list contains every field violation found (no short-circuit), and
the store — hence the collection's contents and size — is unchanged. -/
theorem create_invalid_full_report (sch : ResourceSchema) (s : Store) (input : Payload)
    (f : Field) (e : FieldError) (hf : f ∈ sch.fields)
    (he : checkCreateField input f = some e) :
    ∃ errs, createOp sch s input = (Response.invalidInput errs, s) ∧
      errs ≠ [] ∧ e ∈ errs ∧
      (∀ g ∈ sch.fields, ∀ e2, checkCreateField input g = some e2 → e2 ∈ errs) ∧
      (createOp sch s input).2.countAll = s.countAll := by
  have hmem : e ∈ sch.fields.filterMap (checkCreateField input) :=
    List.mem_filterMap.mpr ⟨f, hf, he⟩
  have hne : ¬((sch.fields.filterMap (checkCreateField input)).isEmpty = true) := by
    intro hb
    rw [List.isEmpty_iff.mp hb] at hmem
    cases hmem
  have hrun : createOp sch s input =
      (Response.invalidInput (sch.fields.filterMap (checkCreateField input)), s) := by
    unfold createOp validateCreate
    rw [if_neg hne]
  refine ⟨sch.fields.filterMap (checkCreateField input), hrun, ?_, hmem, ?_, ?_⟩
  · intro hnil
    rw [hnil] at hmem
    cases hmem
  · intro g hg e2 he2
    exact List.mem_filterMap.mpr ⟨g, hg, he2⟩
  · rw [hrun]

/-- Witness for C1: creating a patient from an empty payload reports the
missing required name, leaving the empty store untouched. -/
theorem create_invalid_full_report_check :
    ∃ errs, createOp patientResource Store.empty [] = (Response.invalidInput errs, Store.empty) ∧
      errs ≠ [] ∧ FieldError.mk "name" "required" ∈ errs ∧
      (∀ g ∈ patientResource.fields, ∀ e2, checkCreateField [] g = some e2 → e2 ∈ errs) ∧
      (createOp patientResource Store.empty []).2.countAll = Store.empty.countAll :=
  create_invalid_full_report patientResource Store.empty []
    ⟨"name", FieldType.fstring 2, true⟩ ⟨"name", "required"⟩ (by decide) (by rfl)

/-- Claim C3: updating an existing record with the empty partial payload
answers 200 with every field unchanged, same id and creation timestamp,
and only the modification timestamp refreshed; in general a schema field
absent from a validated update payload keeps its prior value. -/
theorem update_empty_frame (sch : ResourceSchema) (s : Store) (i : Nat) (r : Record)
    (h : s.findById i = some r) :
    (∃ s2, updateOp sch s i [] = (Response.okRecord (setFields s.clock [] r), s2)) ∧
    (setFields s.clock [] r).fields = r.fields ∧
    (setFields s.clock [] r).id = r.id ∧
    (setFields s.clock [] r).createdAt = r.createdAt ∧
    (setFields s.clock [] r).updatedAt = s.clock ∧
    (∀ input data k, validateUpdate sch.fields input = Except.ok data →
      getVal data k = none →
      ∀ r2 s2, updateOp sch s i input = (Response.okRecord r2, s2) →
        getVal r2.fields k = getVal r.fields k) := by
  have hfields : mergeFields r.fields [] = r.fields := by
    unfold mergeFields
    have hmap : List.map (updFun []) r.fields = r.fields := by
      have hfun : updFun ([] : Payload) = fun kv => kv := rfl
      rw [hfun, List.map_id']
    rw [hmap]
    simp
  refine ⟨?_, hfields, rfl, rfl, rfl, ?_⟩
  · refine ⟨⟨s.recs.map (fun x => if x.id == i then setFields s.clock [] x else x),
        s.nextId, s.clock + 1⟩, ?_⟩
    rw [updateOp_ok sch s i (validateUpdate_empty sch.fields)]
    unfold updateAfterParse Store.updateById
    rw [castErrors_nil, h]
    rfl
  · intro input data k hval hk r2 s2 hrun
    rw [updateOp_ok sch s i hval] at hrun
    unfold updateAfterParse at hrun
    by_cases hce : (castErrors sch.fields data).isEmpty = true
    · rw [if_pos hce] at hrun
      unfold Store.updateById at hrun
      rw [h] at hrun
      have hrun2 : (Response.okRecord (setFields s.clock data r),
          (⟨s.recs.map (fun x => if x.id == i then setFields s.clock data x else x),
            s.nextId, s.clock + 1⟩ : Store)) = (Response.okRecord r2, s2) := hrun
      injection hrun2 with h1 h2
      injection h1 with h3
      rw [← h3]
      show getVal (mergeFields r.fields data) k = getVal r.fields k
      exact getVal_mergeFields_of_none hk r.fields
    · rw [if_neg hce] at hrun
      injection hrun with h1 h2
      cases h1



/-- Witness for C3 on the sample patient store. -/
theorem update_empty_frame_check :
    (∃ s2, updateOp patientResource janeStore 0 [] =
        (Response.okRecord (setFields 1 [] janeRecord), s2)) ∧
    (setFields 1 [] janeRecord).fields = janeRecord.fields ∧
    (setFields 1 [] janeRecord).id = janeRecord.id ∧
    (setFields 1 [] janeRecord).createdAt = janeRecord.createdAt ∧
    (setFields 1 [] janeRecord).updatedAt = 1 ∧
    (∀ input data k, validateUpdate patientResource.fields input = Except.ok data →
      getVal data k = none →
      ∀ r2 s2, updateOp patientResource janeStore 0 input = (Response.okRecord r2, s2) →
        getVal r2.fields k = getVal janeRecord.fields k) :=
  update_empty_frame patientResource janeStore 0 janeRecord (by rfl)

theorem recEnumOk_iff (sch : ResourceSchema) (r : Record) :
    recEnumOk sch r = true ↔ PayloadEnumOk sch.fields r.fields := by
  unfold recEnumOk PayloadEnumOk
  rw [List.all_eq_true]
  constructor
  · intro h f hf kv hkv hname
    have h2 := List.all_eq_true.mp (h f hf) kv hkv
    rw [Bool.or_eq_true] at h2
    rcases h2 with hb | hb
    · exact absurd hname (by simpa using hb)
    · exact hb
  · intro h f hf
    rw [List.all_eq_true]
    intro kv hkv
    rw [Bool.or_eq_true]
    by_cases hname : kv.1 = f.name
    · exact Or.inr (h f hf kv hkv hname)
    · exact Or.inl (by simpa using hname)

theorem enumValOk_of_checkType {t : FieldType} {v : Value}
    (h : checkType t v = true) : enumValOk t v = true := by
  cases t <;> cases v <;> simp_all [checkType, enumValOk]

theorem checkCreateField_some_type {input : Payload} {f : Field} {v : Value}
    (hg : getVal input f.name = some v) (h : checkCreateField input f = none) :
    checkType f.type v = true := by
  unfold checkCreateField at h
  rw [hg] at h
  have h2 : (if checkType f.type v = true then none
      else some (FieldError.mk f.name "invalid_type")) = (none : Option FieldError) := h
  by_cases hc : checkType f.type v = true
  · exact hc
  · rw [if_neg hc] at h2
    cases h2

theorem checkUpdateField_some_type {input : Payload} {f : Field} {v : Value}
    (hg : getVal input f.name = some v) (h : checkUpdateField input f = none) :
    checkType f.type v = true := by
  unfold checkUpdateField at h
  rw [hg] at h
  have h2 : (if checkType f.type v = true then none
      else some (FieldError.mk f.name "invalid_type")) = (none : Option FieldError) := h
  by_cases hc : checkType f.type v = true
  · exact hc
  · rw [if_neg hc] at h2
    cases h2

theorem normalized_enumOk {fields : List Field} {input data : Payload}
    (hnodup : (fields.map Field.name).Nodup)
    (hty : ∀ f ∈ fields, ∀ v, getVal input f.name = some v → checkType f.type v = true)
    (hdata : data = fields.filterMap
      (fun f => (getVal input f.name).map (fun v => (f.name, v)))) :
    PayloadEnumOk fields data := by
  intro f hf kv hkv hname
  rw [hdata] at hkv
  rcases List.mem_filterMap.mp hkv with ⟨g, hg, hmap⟩
  rcases Option.map_eq_some'.mp hmap with ⟨v, hget, hpair⟩
  have hkv1 : kv.1 = g.name := by rw [← hpair]
  have hkv2 : kv.2 = v := by rw [← hpair]
  have hgf : g = f := by
    apply List.inj_on_of_nodup_map hnodup hg hf
    show g.name = f.name
    rw [← hkv1, hname]
  subst hgf
  rw [hkv2]
  exact enumValOk_of_checkType (hty g hg v hget)

theorem validateCreate_enumOk {fields : List Field} {input data : Payload}
    (hnodup : (fields.map Field.name).Nodup)
    (h : validateCreate fields input = Except.ok data) :
    PayloadEnumOk fields data := by
  obtain ⟨hchecks, hdata⟩ := validateCreate_ok h
  refine normalized_enumOk hnodup ?_ hdata
  intro f hf v hget
  exact checkCreateField_some_type hget (hchecks f hf)

theorem validateUpdate_enumOk {fields : List Field} {input data : Payload}
    (hnodup : (fields.map Field.name).Nodup)
    (h : validateUpdate fields input = Except.ok data) :
    PayloadEnumOk fields data := by
  obtain ⟨hchecks, hdata⟩ := validateUpdate_ok h
  refine normalized_enumOk hnodup ?_ hdata
  intro f hf v hget
  exact checkUpdateField_some_type hget (hchecks f hf)

theorem payloadEnumOk_mergeFields {fields : List Field} {old upd : Payload}
    (h1 : PayloadEnumOk fields old) (h2 : PayloadEnumOk fields upd) :
    PayloadEnumOk fields (mergeFields old upd) := by
  intro f hf kv hkv hname
  rcases mem_mergeFields hkv with h | h
  · exact h1 f hf kv h hname
  · exact h2 f hf kv h hname

theorem payloadEnumOk_applyDefaults {fields : List Field} {defs p : Payload}
    (h1 : PayloadEnumOk fields p) (h2 : PayloadEnumOk fields defs) :
    PayloadEnumOk fields (applyDefaults defs p) := by
  intro f hf kv hkv hname
  rcases mem_applyDefaults hkv with h | h
  · exact h1 f hf kv h hname
  · exact h2 f hf kv h hname

theorem storeEnumOk_createOp {sch : ResourceSchema} {s : Store}
    (hnodup : (sch.fields.map Field.name).Nodup)
    (hdefs : PayloadEnumOk sch.fields sch.defaults)
    (hs : StoreEnumOk sch s) (input : Payload) :
    StoreEnumOk sch (createOp sch s input).2 := by
  unfold createOp
  cases hval : validateCreate sch.fields input with
  | error errs => exact hs
  | ok data =>
      show StoreEnumOk sch (createAfterParse sch s data).2
      unfold createAfterParse
      by_cases hce : (castErrors sch.fields data).isEmpty = true
      · rw [if_pos hce]
        intro r hr
        have hr2 : r ∈ s.recs ++
            [⟨s.nextId, applyDefaults sch.defaults data, s.clock, s.clock⟩] := hr
        rcases List.mem_append.mp hr2 with h | h
        · exact hs r h
        · have hr3 : r = ⟨s.nextId, applyDefaults sch.defaults data, s.clock, s.clock⟩ :=
            List.mem_singleton.mp h
          rw [hr3]
          exact payloadEnumOk_applyDefaults (validateCreate_enumOk hnodup hval) hdefs
      · rw [if_neg hce]
        exact hs

theorem storeEnumOk_updateById {sch : ResourceSchema} {s : Store} {upd : Payload}
    (hupd : PayloadEnumOk sch.fields upd) (hs : StoreEnumOk sch s) (i : Nat) :
    StoreEnumOk sch (s.updateById i upd).2 := by
  unfold Store.updateById
  cases hf : s.findById i with
  | none => exact hs
  | some r0 =>
      intro r hr
      have hr2 : r ∈ s.recs.map
          (fun x => if x.id == i then setFields s.clock upd x else x) := hr
      rcases List.mem_map.mp hr2 with ⟨x, hx, hxr⟩
      by_cases hid : (x.id == i) = true
      · rw [if_pos hid] at hxr
        rw [← hxr]
        show PayloadEnumOk sch.fields (mergeFields x.fields upd)
        exact payloadEnumOk_mergeFields (hs x hx) hupd
      · rw [if_neg hid] at hxr
        rw [← hxr]
        exact hs x hx

theorem storeEnumOk_updateOp {sch : ResourceSchema} {s : Store}
    (hnodup : (sch.fields.map Field.name).Nodup)
    (hs : StoreEnumOk sch s) (i : Nat) (input : Payload) :
    StoreEnumOk sch (updateOp sch s i input).2 := by
  unfold updateOp
  cases hval : validateUpdate sch.fields input with
  | error errs => exact hs
  | ok data =>
      have h2 := storeEnumOk_updateById (validateUpdate_enumOk hnodup hval) hs i
      show StoreEnumOk sch (updateAfterParse sch s i data).2
      unfold updateAfterParse
      by_cases hce : (castErrors sch.fields data).isEmpty = true
      · rw [if_pos hce]
        cases hu : s.updateById i data with
        | mk o s2 =>
            rw [hu] at h2
            cases o
            · exact h2
            · exact h2
      · rw [if_neg hce]
        exact hs

theorem storeEnumOk_deleteOp {sch : ResourceSchema} {s : Store}
    (hs : StoreEnumOk sch s) (i : Nat) :
    StoreEnumOk sch (deleteOp s i).2 := by
  intro r hr
  have hr2 : r ∈ s.recs.filter (fun x => x.id != i) := hr
  exact hs r (List.mem_filter.mp hr2).1

theorem storeEnumOk_cancelOp {sch : ResourceSchema} {s : Store}
    (hsch : sch = appointmentResource) (hs : StoreEnumOk sch s) (i : Nat) :
    StoreEnumOk sch (cancelOp s i).2 := by
  have hupd : PayloadEnumOk sch.fields [("status", Value.str "cancelled")] := by
    rw [hsch]
    decide
  have h2 := storeEnumOk_updateById hupd hs i
  unfold cancelOp
  show StoreEnumOk sch (match s.updateById i [("status", Value.str "cancelled")] with
    | (none, s2) => (Response.notFound, s2)
    | (some r, s2) => (Response.okRecord r, s2)).2
  cases hu : s.updateById i [("status", Value.str "cancelled")] with
  | mk o s2 =>
      rw [hu] at h2
      cases o
      · exact h2
      · exact h2

/-- Claim C7: for every resource module of the registry, every record in
a store reachable through create, update, delete and (for appointments)
the cancel transition holds in each enum field only values from that
field's declared set: create and update validate enum values, defaults
are in-set, and the cancel transition writes only the in-set value
cancelled. -/
theorem enum_fields_invariant (sch : ResourceSchema) (hsch : sch ∈ allResources)
    (s : Store) (hs : Reachable sch s) :
    ∀ r ∈ s.recs, recEnumOk sch r = true := by
  have hnodup : (sch.fields.map Field.name).Nodup := by
    simp only [allResources, List.mem_cons, List.not_mem_nil, or_false] at hsch
    rcases hsch with rfl | rfl | rfl | rfl | rfl | rfl | rfl | rfl | rfl <;> decide
  have hdefs : PayloadEnumOk sch.fields sch.defaults := by
    simp only [allResources, List.mem_cons, List.not_mem_nil, or_false] at hsch
    rcases hsch with rfl | rfl | rfl | rfl | rfl | rfl | rfl | rfl | rfl <;> decide
  have hinv : StoreEnumOk sch s := by
    induction hs with
    | empty =>
        intro r hr
        cases hr
    | create s0 input hprev ih => exact storeEnumOk_createOp hnodup hdefs ih input
    | update s0 i input hprev ih => exact storeEnumOk_updateOp hnodup ih i input
    | del s0 i hprev ih => exact storeEnumOk_deleteOp ih i
    | cancel s0 i hap hprev ih => exact storeEnumOk_cancelOp hap ih i
  intro r hr
  rw [recEnumOk_iff]
  exact hinv r hr

/-- Witness for C7: create an appointment, cancel it, and check the one
stored record — now carrying status cancelled — against the enum
constraints. -/
theorem enum_fields_invariant_check :
    recEnumOk appointmentResource
      ⟨0, [("patientId", Value.str "p1"), ("providerId", Value.str "d1"),
          ("start", Value.str "2024-01-01T09:00:00.000Z"),
          ("end", Value.str "2024-01-02T10:00:00.000Z"),
          ("status", Value.str "cancelled")], 0, 1⟩ = true :=
  enum_fields_invariant appointmentResource (by decide)
    (cancelOp (createOp appointmentResource Store.empty
        [("patientId", Value.str "p1"), ("providerId", Value.str "d1"),
         ("start", Value.str "2024-01-01T09:00:00.000Z"),
         ("end", Value.str "2024-01-02T10:00:00.000Z")]).2 0).2
    (Reachable.cancel _ 0 rfl (Reachable.create _ _ Reachable.empty))
    ⟨0, [("patientId", Value.str "p1"), ("providerId", Value.str "d1"),
        ("start", Value.str "2024-01-01T09:00:00.000Z"),
        ("end", Value.str "2024-01-02T10:00:00.000Z"),
        ("status", Value.str "cancelled")], 0, 1⟩ (by decide)

end HealthApi

